import Mathlib

/-!
Verification of the workflow-graph model of a React Flow based diagram
editor.  The definitions below are a shallow embedding of the relevant
parts of `src/App.tsx` (current component, lines 1-1719) and of the
legacy variant kept in the repository (`src/unnamed/part_000`):
node/edge data model, template and visible-node queries, jump/land
colour-index assignment, the base-26 unique-label generator, and the
JSON export/import normalisation logic.
-/

/-- A 2-D canvas position (`position {x, y}` on a React Flow node). -/
structure Pos where
  x : Int
  y : Int
deriving DecidableEq, Repr

/-- `WorkflowDef` record: both fields are optional in the TypeScript type. -/
structure WorkflowDef where
  ad : Option String
  aciklama : Option String
deriving DecidableEq, Repr

/-- Discriminated node payload (`BoxData | JumpData | LandData`).
`box` carries the display label, the optional `def` record and `dbId`;
`jump` carries the legacy `label`, the `landId` reference and `colorIndex`;
`land` carries the legacy `label`, `nextNodeId` and `colorIndex`. -/
inductive NodeData where
  | box (label : String) (wdef : Option WorkflowDef) (dbId : Option String)
  | jump (label : Option String) (landId : Option String) (colorIndex : Int)
  | land (label : Option String) (nextNodeId : Option String) (colorIndex : Int)
deriving DecidableEq, Repr

/-- A React Flow node: id, position and the discriminated payload.
Every creation site of the app sets `type` equal to `data.nodeType`,
so the kind is carried once, by the payload. -/
structure RFNode where
  id : String
  pos : Pos
  data : NodeData
deriving DecidableEq, Repr

/-- A directed edge (`{id, source, target}`). -/
structure REdge where
  id : String
  source : String
  target : String
deriving DecidableEq, Repr

/-- The in-memory graph: the `nodes` and `edges` state arrays. -/
structure Graph where
  nodes : List RFNode
  edges : List REdge
deriving DecidableEq, Repr

/-- JavaScript `a || b` on optional strings: `undefined` and the empty
string are falsy and fall through to `b`. -/
def jsOrO : Option String → Option String → Option String
  | some s, b => if s = "" then b else some s
  | none, b => b

/-- JavaScript `a || d` where the right operand is a plain string. -/
def jsOrD (a : Option String) (d : String) : String :=
  match a with
  | some s => if s = "" then d else s
  | none => d

/-- `Array.prototype.filter(Boolean)` on one optional string: keeps the
value only when it is truthy (present and non-empty). -/
def truthyStr (a : Option String) : Option String :=
  jsOrO a none

/-! ### Base-26 unique label generator (`getNextJumpLandLabel`, legacy file)

The source builds the candidate label for counter `index` with
`do { label = alphabet[temp % 26] + label; temp = floor(temp / 26) - 1 } while (temp >= 0)`
and scans counters `0, 1, 2, …` until the label is not among the existing
jump/land labels. -/

/-- Digit list (most significant first, each in `0..25`) produced by the
inner `do/while` loop of `getNextJumpLandLabel` for counter `n`.  The
first argument is structural fuel; `n + 1` is always enough because the
loop variable strictly decreases. -/
def labelDigits : Nat → Nat → List Nat
  | 0, _ => []
  | fuel + 1, n => if n < 26 then [n] else labelDigits fuel (n / 26 - 1) ++ [n % 26]

/-- The label string for counter `n`: `0 ↦ "A"`, …, `25 ↦ "Z"`, `26 ↦ "AA"`, …. -/
def labelOfIndex (n : Nat) : String :=
  String.mk ((labelDigits (n + 1) n).map (fun d => Char.ofNat (65 + d)))

/-- Decode a label string back to `counter + 1`; used to bound the scan. -/
def decodeLabel (s : String) : Nat :=
  s.data.foldl (fun a c => a * 26 + (c.toNat - 65) + 1) 0

/-- An upper bound for the first free counter: the maximum decode value
over the existing labels. -/
def labelBound (ls : List String) : Nat :=
  ls.foldr (fun s m => max (decodeLabel s) m) 0

/-- The scanning loop of `getNextJumpLandLabel`: try counters `i, i+1, …`
(at most `fuel` of them) and return the first label not in `ls`. -/
def nextFreeLabelGo (ls : List String) : Nat → Nat → String
  | 0, i => labelOfIndex i
  | fuel + 1, i =>
      if labelOfIndex i ∈ ls then nextFreeLabelGo ls fuel (i + 1) else labelOfIndex i

/-- `getNextJumpLandLabel` on an explicit list of existing labels. -/
def nextFreeLabel (ls : List String) : String :=
  nextFreeLabelGo ls (labelBound ls + 1) 0

/-- The `data.label` values of the jump/land nodes (entries whose label is
`undefined` can never equal a generated string, so they are dropped). -/
def jumpLandLabels (nodes : List RFNode) : List String :=
  nodes.filterMap (fun n =>
    match n.data with
    | .box _ _ _ => none
    | .jump lbl _ _ => lbl
    | .land lbl _ _ => lbl)

/-- `getNextJumpLandLabel` as in the legacy file: scan starting from the
labels currently used by jump/land nodes. -/
def getNextJumpLandLabel (nodes : List RFNode) : String :=
  nextFreeLabel (jumpLandLabels nodes)

/-! ### Template / visible-node queries (`templates`, `visibleNodes`) -/

/-- The projected record shown in the template list (`{id, ad, aciklama}`). -/
structure TemplateRec where
  id : String
  ad : String
  aciklama : String
deriving DecidableEq, Repr

/-- The per-node step of the `templates` memo: a `box` node at exactly
`(-1, -1)` is projected to `{id, ad, aciklama}`, every other node is
skipped. -/
def templateProj (n : RFNode) : Option TemplateRec :=
  match n.data with
  | .box lbl wd _ =>
      if n.pos.x = -1 ∧ n.pos.y = -1 then
        some ⟨n.id, jsOrD (jsOrO (wd.bind (·.ad)) (some lbl)) "",
          jsOrD (wd.bind (·.aciklama)) ""⟩
      else none
  | _ => none

/-- `templates`: derived list of template records. -/
def templatesQ (nodes : List RFNode) : List TemplateRec :=
  nodes.filterMap templateProj

/-- `visibleNodes`: nodes whose position satisfies `x >= 0 && y >= 0`. -/
def visibleNodesQ (nodes : List RFNode) : List RFNode :=
  nodes.filter (fun n => decide (0 ≤ n.pos.x ∧ 0 ≤ n.pos.y))

/-! ### Colour-index assignment for jump/land creation -/

/-- The `colorIndex` values of all jump/land nodes (the `usedIndices` set). -/
def jumpLandColorIndices (nodes : List RFNode) : List Int :=
  nodes.filterMap (fun n =>
    match n.data with
    | .box _ _ _ => none
    | .jump _ _ ci => some ci
    | .land _ _ ci => some ci)

/-- Colour chosen by `addJumpNode` / `addLandNode` in the current
component: the first palette index in `0..7` not in `usedIndices`;
when all eight are in use the initial value `0` is kept. -/
def nextColorIndex (nodes : List RFNode) : Int :=
  match (List.range 8).find? (fun i => !((jumpLandColorIndices nodes).contains (Int.ofNat i))) with
  | some i => Int.ofNat i
  | none => 0

/-- `addJumpNode`: append a fresh jump node with the computed colour. -/
def addJumpNode (id : String) (p : Pos) (g : Graph) : Graph :=
  ⟨g.nodes ++ [⟨id, p, NodeData.jump none none (nextColorIndex g.nodes)⟩], g.edges⟩

/-- `addLandNode`: append a fresh land node with the computed colour. -/
def addLandNode (id : String) (p : Pos) (g : Graph) : Graph :=
  ⟨g.nodes ++ [⟨id, p, NodeData.land none none (nextColorIndex g.nodes)⟩], g.edges⟩

/-- A concrete creation sequence: `n` successive `addJumpNode` calls on an
initially empty graph, with ids `"0"`, `"1"`, …. -/
def buildJump (n : Nat) : Graph :=
  (List.range n).foldl (fun g k => addJumpNode (toString k) ⟨0, 0⟩ g) ⟨[], []⟩

/-- The jump/land nodes (legacy `jumpLandNodes` filter). -/
def jumpLandNodes (nodes : List RFNode) : List RFNode :=
  nodes.filter (fun n =>
    match n.data with
    | .box _ _ _ => false
    | _ => true)

/-- Does this jump/land node carry exactly the given legacy label? -/
def labelMatches (label : String) (n : RFNode) : Bool :=
  match n.data with
  | .jump (some l) _ _ => l == label
  | .land (some l) _ _ => l == label
  | _ => false

/-- Legacy `getColorIndexForLabel`: reuse the colour of an existing node
with the same label, otherwise the first unused palette index, otherwise
`jumpLandNodes.length % JUMP_LAND_COLORS.length`. -/
def getColorIndexForLabel (nodes : List RFNode) (label : String) : Int :=
  let jl := jumpLandNodes nodes
  match jl.find? (labelMatches label) with
  | some n =>
      (match n.data with
       | .jump _ _ ci => ci
       | .land _ _ ci => ci
       | .box _ _ _ => 0)
  | none =>
      match (List.range 8).find? (fun i => !((jumpLandColorIndices nodes).contains (Int.ofNat i))) with
      | some i => Int.ofNat i
      | none => ((jumpLandNodes nodes).length : Int) % 8

/-! ### Land-node selection for jump editing (`getAvailableLandNodes`) -/

/-- The record offered in the land-selection dropdown. -/
structure LandInfo where
  id : String
  displayName : String
  colorIndex : Int
deriving DecidableEq, Repr

/-- `getLandNodesWithLabels`: land nodes with display names `Land 1`,
`Land 2`, … in order of appearance. -/
def landInfosFrom : Nat → List RFNode → List LandInfo
  | _, [] => []
  | i, n :: rest =>
      match n.data with
      | .land _ _ ci => ⟨n.id, "Land " ++ toString (i + 1), ci⟩ :: landInfosFrom (i + 1) rest
      | _ => landInfosFrom i rest

/-- `getLandNodesWithLabels` starting at index `0`. -/
def getLandNodesWithLabels (nodes : List RFNode) : List LandInfo :=
  landInfosFrom 0 nodes

/-- `connectedLandIds`: the truthy `landId` references of jump nodes
(`filter(Boolean)` drops `undefined` and the empty string). -/
def connectedLandIds (nodes : List RFNode) : List String :=
  nodes.filterMap (fun n =>
    match n.data with
    | .jump _ li _ => truthyStr li
    | _ => none)

/-- `getAvailableLandNodes`: lands that are unreferenced, plus the one
currently selected in the edit modal. -/
def getAvailableLandNodes (nodes : List RFNode) (selectedLandId : Option String) :
    List LandInfo :=
  (getLandNodesWithLabels nodes).filter
    (fun l => !((connectedLandIds nodes).contains l.id) || (some l.id == selectedLandId))

/-- The `landId` reference of a node, when it is a jump node. -/
def jumpLandIdOf (n : RFNode) : Option String :=
  match n.data with
  | .jump _ li _ => li
  | _ => none

/-! ### Node deletion (`onNodesDelete`) -/

/-- The registered `onNodesDelete` callback has an empty body: a node
deletion request performs no state update of its own. -/
def onNodesDelete (_deletedNodes : List RFNode) (g : Graph) : Graph :=
  g

/-! ### JSON export / import (`exportJson`, `importJson`)

The raw record types below mirror exactly the fields that `importJson`
reads from the parsed JSON (`JSON.parse` result) and that `exportJson`
writes.  `Option` models absent (or `null`) fields; `JVal` distinguishes
numeric from non-numeric position values for the `typeof x === 'number'`
check. -/

/-- A JSON scalar as far as the position checks are concerned. -/
inductive JVal where
  | num (v : Int)
  | str (s : String)
deriving DecidableEq, Repr

/-- Nested `position : {x, y}` record of a raw node. -/
structure RawPos where
  x : Option JVal := none
  y : Option JVal := none
deriving DecidableEq, Repr

/-- Nested `data.def` record of a raw node. -/
structure RawDef where
  ad : Option String := none
  aciklama : Option String := none
deriving DecidableEq, Repr

/-- Nested `data` record of a raw node (legacy shapes). -/
structure RawData where
  ad : Option String := none
  aciklama : Option String := none
  label : Option String := none
  rdef : Option RawDef := none
deriving DecidableEq, Repr

/-- A raw node entry of an import file; `rtype` is the `type`
discriminator field. -/
structure RawNode where
  id : Option String := none
  rtype : Option String := none
  x : Option JVal := none
  y : Option JVal := none
  position : Option RawPos := none
  ad : Option String := none
  aciklama : Option String := none
  label : Option String := none
  land : Option String := none
  nextNode : Option String := none
  colorIndex : Option Int := none
  rdata : Option RawData := none
deriving DecidableEq, Repr

/-- A raw edge entry of an import file. -/
structure RawEdge where
  id : Option String := none
  source : Option String := none
  target : Option String := none
  islem_tur : Option String := none
  sonraki_islem_tur : Option String := none
deriving DecidableEq, Repr

/-- A raw entry of the optional legacy `templates` array. -/
structure RawTemplate where
  id : Option String := none
  ad : Option String := none
  aciklama : Option String := none
deriving DecidableEq, Repr

/-- A resolved jump-to-land pair of the exported `jumpLinks` array. -/
structure JumpLink where
  jumpNodeId : String
  landNodeId : String
deriving DecidableEq, Repr

/-- The parsed import/export document.  A field that is absent or fails
the `Array.isArray` check is `none`. -/
structure ImportDoc where
  nodes : Option (List RawNode) := none
  edges : Option (List RawEdge) := none
  templates : Option (List RawTemplate) := none
  jumpLinks : Option (List JumpLink) := none
deriving DecidableEq, Repr

/-- Effective exported name of a box node:
`boxData.def?.ad || boxData.label || ''`. -/
def effAd (lbl : String) (wd : Option WorkflowDef) : String :=
  jsOrD (jsOrO (wd.bind (·.ad)) (some lbl)) ""

/-- Effective exported description of a box node:
`boxData.def?.aciklama || ''`. -/
def effAciklama (wd : Option WorkflowDef) : String :=
  jsOrD (wd.bind (·.aciklama)) ""

/-- One entry of the export-side `nodeIdToAd` map: a box node with the
given id contributes `def?.ad || label || n.id`; later entries override
earlier ones (`Map.set`), hence `getLast?` in `nodeIdToAd`. -/
def adEntry (i : String) (n : RFNode) : Option String :=
  match n.data with
  | .box lbl wd _ =>
      if n.id = i then some (jsOrD (jsOrO (wd.bind (·.ad)) (some lbl)) n.id) else none
  | _ => none

/-- Lookup in the export-side `nodeIdToAd` map. -/
def nodeIdToAd (nodes : List RFNode) (i : String) : Option String :=
  (nodes.filterMap (adEntry i)).getLast?

/-- The human-readable endpoint written for an edge endpoint:
`nodeIdToAd.get(id) || id`. -/
def endpointName (nodes : List RFNode) (i : String) : String :=
  jsOrD (nodeIdToAd nodes i) i

/-- `nodes.find(n => n.id === id)`. -/
def findNode (nodes : List RFNode) (i : String) : Option RFNode :=
  nodes.find? (fun n => n.id == i)

/-- Is the node a land node? -/
def isLandNode (n : RFNode) : Bool :=
  match n.data with
  | .land _ _ _ => true
  | _ => false

/-- The export-side `landNextNodeMap` lookup: the target of the last edge
whose source resolves to this land node. -/
def landNextNode (g : Graph) (i : String) : Option String :=
  (g.edges.filterMap (fun e =>
    if e.source = i ∧ (match findNode g.nodes e.source with
        | some m => isLandNode m
        | none => false) = true
    then some e.target else none)).getLast?

/-- Raw record exported for a box node. -/
def rawOfBox (n : RFNode) : Option RawNode :=
  match n.data with
  | .box lbl wd _ =>
      some { id := some n.id, rtype := some "box",
             x := some (.num n.pos.x), y := some (.num n.pos.y),
             ad := some (effAd lbl wd), aciklama := some (effAciklama wd) }
  | _ => none

/-- Raw record exported for a jump node (`land: jumpData.landId || null`). -/
def rawOfJump (n : RFNode) : Option RawNode :=
  match n.data with
  | .jump _ landId ci =>
      some { id := some n.id, rtype := some "jump",
             x := some (.num n.pos.x), y := some (.num n.pos.y),
             land := truthyStr landId, colorIndex := some ci }
  | _ => none

/-- Raw record exported for a land node
(`nextNode: landNextNodeMap.get(n.id) || null`). -/
def rawOfLand (g : Graph) (n : RFNode) : Option RawNode :=
  match n.data with
  | .land _ _ ci =>
      some { id := some n.id, rtype := some "land",
             x := some (.num n.pos.x), y := some (.num n.pos.y),
             nextNode := truthyStr (landNextNode g n.id), colorIndex := some ci }
  | _ => none

/-- The exported `nodes` array: box nodes, then jump nodes, then land
nodes. -/
def exportBoxRaws (nodes : List RFNode) : List RawNode :=
  nodes.filterMap rawOfBox

/-- Exported jump-node records. -/
def exportJumpRaws (nodes : List RFNode) : List RawNode :=
  nodes.filterMap rawOfJump

/-- Exported land-node records. -/
def exportLandRaws (g : Graph) : List RawNode :=
  g.nodes.filterMap (rawOfLand g)

/-- The exported `edges` array: each edge gets a freshly generated id
(`genE` models `crypto.randomUUID`, one call per edge in order) and the
denormalised `islem_tur` / `sonraki_islem_tur` names. -/
def exportEdgesFrom (nodes : List RFNode) (genE : Nat → String) :
    Nat → List REdge → List RawEdge
  | _, [] => []
  | i, e :: rest =>
      { id := some (genE i), source := some e.source, target := some e.target,
        islem_tur := some (endpointName nodes e.source),
        sonraki_islem_tur := some (endpointName nodes e.target) }
        :: exportEdgesFrom nodes genE (i + 1) rest

/-- The exported `jumpLinks` array: one entry per jump node with a truthy
`land` reference. -/
def exportJumpLinks (nodes : List RFNode) : List JumpLink :=
  nodes.filterMap (fun n =>
    match n.data with
    | .jump _ landId _ =>
        match truthyStr landId with
        | some l => some (⟨n.id, l⟩ : JumpLink)
        | none => none
    | _ => none)

/-- `exportJson`: the document written to the export file. -/
def exportJson (g : Graph) (genE : Nat → String) : ImportDoc :=
  { nodes := some (exportBoxRaws g.nodes ++ exportJumpRaws g.nodes ++ exportLandRaws g),
    edges := some (exportEdgesFrom g.nodes genE 0 g.edges),
    jumpLinks := some (exportJumpLinks g.nodes) }

/-- Numeric value of a raw field (the `typeof x === 'number'` check). -/
def numOf : Option JVal → Option Int
  | some (.num v) => some v
  | _ => none

/-- JavaScript `a ?? b` on raw values (only absent/null falls through). -/
def jvalOrElse : Option JVal → Option JVal → Option JVal
  | some v, _ => some v
  | none, b => b

/-- Fallback grid x-coordinate for the entry at array index `i`:
`100 + (index % 5) * 250`. -/
def fallbackX (i : Nat) : Int :=
  100 + Int.ofNat (i % 5) * 250

/-- Fallback grid y-coordinate for the entry at array index `i`:
`100 + floor(index / 5) * 100`. -/
def fallbackY (i : Nat) : Int :=
  100 + Int.ofNat (i / 5) * 100

/-- Imported position of the raw node at array index `i`:
`n.x ?? n.position?.x` when numeric, else the fallback grid slot
(each coordinate falls back independently). -/
def importPos (i : Nat) (n : RawNode) : Pos :=
  ⟨(numOf (jvalOrElse n.x (n.position.bind (·.x)))).getD (fallbackX i),
   (numOf (jvalOrElse n.y (n.position.bind (·.y)))).getD (fallbackY i)⟩

/-- Imported box name:
`n.ad || n.data?.ad || n.data?.def?.ad || n.data?.label || 'Imported Node'`. -/
def importAd (n : RawNode) : String :=
  jsOrD (jsOrO n.ad (jsOrO (n.rdata.bind (·.ad))
    (jsOrO ((n.rdata.bind (·.rdef)).bind (·.ad)) (n.rdata.bind (·.label))))) "Imported Node"

/-- Imported box description:
`n.aciklama || n.data?.aciklama || n.data?.def?.aciklama || ''`. -/
def importAciklama (n : RawNode) : String :=
  jsOrD (jsOrO n.aciklama (jsOrO (n.rdata.bind (·.aciklama))
    ((n.rdata.bind (·.rdef)).bind (·.aciklama)))) ""

/-- Convert the raw node at array index `i` (`genN` models the
`crypto.randomUUID` fallback for a missing/empty id). -/
def rawToNode (genN : Nat → String) (i : Nat) (n : RawNode) : RFNode :=
  let pos := importPos i n
  let nid := jsOrD n.id (genN i)
  if n.rtype = some "jump" then
    ⟨nid, pos, .jump n.label (truthyStr n.land) (n.colorIndex.getD 0)⟩
  else if n.rtype = some "land" then
    ⟨nid, pos, .land n.label (truthyStr n.nextNode) (n.colorIndex.getD 0)⟩
  else
    ⟨nid, pos, .box (importAd n) (some ⟨some (importAd n), some (importAciklama n)⟩) n.id⟩

/-- `data.nodes.forEach((n, index) => …)`: convert each entry with its
array index. -/
def importNodesFrom (genN : Nat → String) : Nat → List RawNode → List RFNode
  | _, [] => []
  | i, n :: rest => rawToNode genN i n :: importNodesFrom genN (i + 1) rest

/-- `data.templates.forEach((t, i) => …)`: legacy explicit templates are
appended as box nodes at the sentinel position `(-1, -1)`. -/
def importTemplatesFrom : Nat → List RawTemplate → List RFNode
  | _, [] => []
  | i, t :: rest =>
      ⟨jsOrD t.id ("template-explicit-" ++ toString i), ⟨-1, -1⟩,
        .box (jsOrD t.ad "")
          (some ⟨some (jsOrD t.ad ""), some (jsOrD t.aciklama "")⟩) none⟩
        :: importTemplatesFrom (i + 1) rest

/-- One entry of the import-side `adToNodeId` map: a box node whose
truthy name is `k` contributes its id; later entries override earlier
ones. -/
def adToNodeId (nodes : List RFNode) (k : String) : Option String :=
  (nodes.filterMap (fun n =>
    match n.data with
    | .box lbl wd _ =>
        if jsOrD (wd.bind (·.ad)) lbl ≠ "" ∧ jsOrD (wd.bind (·.ad)) lbl = k
        then some n.id else none
    | _ => none)).getLast?

/-- Hexadecimal digit (either case), as in the `/i`-flagged regex. -/
def isHexChar (c : Char) : Bool :=
  (('0' ≤ c) && (c ≤ '9')) || (('a' ≤ c) && (c ≤ 'f')) || (('A' ≤ c) && (c ≤ 'F'))

/-- The character class the UUID-v4 regex requires at position `i`. -/
def uuidClassAt (i : Nat) (c : Char) : Bool :=
  if i = 8 ∨ i = 13 ∨ i = 18 ∨ i = 23 then c == '-'
  else if i = 14 then c == '4'
  else if i = 19 then
    c == '8' || c == '9' || c == 'a' || c == 'b' || c == 'A' || c == 'B'
  else isHexChar c

/-- `/^[0-9a-f]{8}-[0-9a-f]{4}-4[0-9a-f]{3}-[89ab][0-9a-f]{3}-[0-9a-f]{12}$/i`. -/
def isValidUUID (s : String) : Bool :=
  s.data.length == 36 && s.data.enum.all (fun p => uuidClassAt p.1 p.2)

/-- Resolve both endpoints of a raw edge:
`e.source || adToNodeId.get(e.islem_tur)` (and symmetrically for the
target); the edge is dropped when either result is falsy. -/
def resolveEnds (adMap : String → Option String) (e : RawEdge) :
    Option (String × String) :=
  match truthyStr (jsOrO e.source (e.islem_tur.bind adMap)),
        truthyStr (jsOrO e.target (e.sonraki_islem_tur.bind adMap)) with
  | some s, some t => some (s, t)
  | _, _ => none

/-- Imported edge id: a provided id is kept only when it already matches
the canonical UUID-v4 format, otherwise a fresh one is generated. -/
def importEdgeId (genE : Nat → String) (i : Nat) (e : RawEdge) : String :=
  match e.id with
  | some eid => if isValidUUID eid then eid else genE i
  | none => genE i

/-- `data.edges.map(…).filter(Boolean)`: resolvable entries become edges,
unresolvable ones are dropped. -/
def importEdgesFrom (adMap : String → Option String) (genE : Nat → String) :
    Nat → List RawEdge → List REdge
  | _, [] => []
  | i, e :: rest =>
      match resolveEnds adMap e with
      | some (s, t) =>
          ⟨importEdgeId genE i e, s, t⟩ :: importEdgesFrom adMap genE (i + 1) rest
      | none => importEdgesFrom adMap genE (i + 1) rest

/-- `importJson` on a successfully parsed document.  Nothing happens
without a `nodes` array; with one, the node collection is replaced
(plus legacy explicit templates), and the edge collection is replaced
only when an `edges` array is present. -/
def importJson (doc : ImportDoc) (genN genE : Nat → String) (prev : Graph) : Graph :=
  match doc.nodes with
  | some ns =>
      let allNodes := importNodesFrom genN 0 ns ++
        (match doc.templates with
         | some ts => importTemplatesFrom 0 ts
         | none => [])
      let newEdges :=
        match doc.edges with
        | some es => importEdgesFrom (adToNodeId allNodes) genE 0 es
        | none => prev.edges
      ⟨allNodes, newEdges⟩
  | none => prev

/-- The whole `reader.onload` handler with its `try/catch`: `parsed` is
the outcome of `JSON.parse` (the parse itself is a browser builtin
outside this repository) — `none` means the parse threw, in which case
the catch branch shows the localized alert (the boolean) and performs no
state update. -/
def importJsonCaught (parsed : Option ImportDoc) (genN genE : Nat → String)
    (prev : Graph) : Graph × Bool :=
  match parsed with
  | none => (prev, true)
  | some doc => (importJson doc genN genE prev, false)

/-- Export followed by re-import of the produced file. -/
def roundTrip (g : Graph) (genE genN genE2 : Nat → String) (prev : Graph) : Graph :=
  importJson (exportJson g genE) genN genE2 prev

/-- Projection of the box (process) nodes to `(id, name, description)`. -/
def boxProj (nodes : List RFNode) : List (String × String × String) :=
  nodes.filterMap (fun n =>
    match n.data with
    | .box lbl wd _ => some (n.id, effAd lbl wd, effAciklama wd)
    | _ => none)

/-- The endpoint id pair of an edge. -/
def edgeEnds (e : REdge) : String × String :=
  (e.source, e.target)

/-- The endpoint pairs of the edges identified by node name (via the
export naming convention). -/
def edgeNamePairs (nodes : List RFNode) (edges : List REdge) : List (String × String) :=
  edges.map (fun e => (endpointName nodes e.source, endpointName nodes e.target))

/-- Is the effective name of this node truthy whenever it is a box node?
(Used as a decidable round-trip hypothesis.) -/
def boxAdOk (n : RFNode) : Bool :=
  match n.data with
  | .box lbl wd _ => effAd lbl wd != ""
  | _ => true

/-- Expected round-trip image of a box node. -/
def importedBoxOf (n : RFNode) : Option RFNode :=
  match n.data with
  | .box lbl wd _ =>
      some ⟨n.id, n.pos, .box (effAd lbl wd)
        (some ⟨some (effAd lbl wd), some (effAciklama wd)⟩) (some n.id)⟩
  | _ => none

/-- Expected round-trip image of a jump node. -/
def importedJumpOf (n : RFNode) : Option RFNode :=
  match n.data with
  | .jump _ landId ci => some ⟨n.id, n.pos, .jump none (truthyStr landId) ci⟩
  | _ => none

/-- Expected round-trip image of a land node. -/
def importedLandOf (g : Graph) (n : RFNode) : Option RFNode :=
  match n.data with
  | .land _ _ ci =>
      some ⟨n.id, n.pos, .land none (truthyStr (landNextNode g n.id)) ci⟩
  | _ => none

/-- A fixed id generator standing in for `crypto.randomUUID` in concrete
computations. -/
def gen0 : Nat → String :=
  fun i => "uuid-" ++ toString i

/-- A graph exhibiting the round-trip defects: a box node with an empty
name, a land node with an empty id, and an edge out of that land node. -/
def gBad : Graph :=
  ⟨[⟨"b", ⟨0, 0⟩, .box "" none none⟩, ⟨"", ⟨10, 10⟩, .land none none 0⟩],
   [⟨"e1", "", "b"⟩]⟩

/-- A well-formed graph (non-empty ids, non-empty box names, edges with
non-empty endpoints) used to witness the round-trip theorem. -/
def gGood : Graph :=
  ⟨[⟨"b1", ⟨1, 2⟩, .box "N1" (some ⟨some "N1", some "D1"⟩) none⟩,
    ⟨"j1", ⟨3, 4⟩, .jump none (some "l1") 2⟩,
    ⟨"l1", ⟨5, 6⟩, .land none none 2⟩],
   [⟨"e1", "b1", "j1"⟩, ⟨"e2", "l1", "b1"⟩]⟩

/-- Import document with two named box nodes and two edges referencing
them by name, one resolvable and one not. -/
def docC5 : ImportDoc :=
  { nodes := some
      [{ id := some "idA", rtype := some "box", x := some (.num 0),
         y := some (.num 0), ad := some "A" },
       { id := some "idB", rtype := some "box", x := some (.num 100),
         y := some (.num 0), ad := some "B" }],
    edges := some
      [{ islem_tur := some "A", sonraki_islem_tur := some "B" },
       { islem_tur := some "A", sonraki_islem_tur := some "C" }] }


theorem foldl_labelDigits (fuel : Nat) :
    ∀ n : Nat, n < fuel →
      (labelDigits fuel n).foldl (fun a d => a * 26 + d + 1) 0 = n + 1 := by
  induction fuel with
  | zero => intro n h; omega
  | succ fuel ih =>
      intro n h
      by_cases h26 : n < 26
      · simp [labelDigits, h26]
      · have hpos : 0 < n := by omega
        have hdiv : n / 26 < n := Nat.div_lt_self hpos (by omega)
        have hone : 1 ≤ n / 26 := (Nat.one_le_div_iff (by omega)).mpr (by omega)
        have hlt : n / 26 - 1 < fuel := by omega
        have hmod := Nat.div_add_mod n 26
        simp only [labelDigits, if_neg h26, List.foldl_append, List.foldl_cons,
          List.foldl_nil, ih (n / 26 - 1) hlt]
        omega

theorem labelDigits_lt (fuel : Nat) :
    ∀ n : Nat, ∀ d ∈ labelDigits fuel n, d < 26 := by
  induction fuel with
  | zero => intro n d hd; simp [labelDigits] at hd
  | succ fuel ih =>
      intro n d hd
      by_cases h26 : n < 26
      · simp [labelDigits, h26] at hd; omega
      · simp only [labelDigits, if_neg h26, List.mem_append, List.mem_singleton] at hd
        rcases hd with hd | hd
        · exact ih _ d hd
        · subst hd; exact Nat.mod_lt _ (by omega)

theorem char_toNat_ofNat_small (m : Nat) (h : m < 55296) :
    (Char.ofNat m).toNat = m := by
  have hv : Nat.isValidChar m := Or.inl h
  simp only [Char.ofNat, Char.ofNatAux, hv, Char.toNat, dif_pos]
  rfl

theorem decodeLabel_labelOfIndex (n : Nat) : decodeLabel (labelOfIndex n) = n + 1 := by
  have hdl := labelDigits_lt (n + 1) n
  unfold decodeLabel labelOfIndex
  rw [show (String.mk ((labelDigits (n + 1) n).map (fun d => Char.ofNat (65 + d)))).data
      = (labelDigits (n + 1) n).map (fun d => Char.ofNat (65 + d)) from rfl]
  rw [List.foldl_map]
  have : ∀ l : List Nat, (∀ d ∈ l, d < 26) → ∀ a : Nat,
      l.foldl (fun a d => a * 26 + ((Char.ofNat (65 + d)).toNat - 65) + 1) a
        = l.foldl (fun a d => a * 26 + d + 1) a := by
    intro l
    induction l with
    | nil => intro _ a; rfl
    | cons d l ihl =>
        intro hl a
        have hd : d < 26 := hl d (by simp)
        have := char_toNat_ofNat_small (65 + d) (by omega)
        simp only [List.foldl_cons, this]
        rw [ihl (fun x hx => hl x (by simp [hx]))]
        congr 1
        omega
  rw [this _ hdl 0]
  exact foldl_labelDigits (n + 1) n (by omega)

theorem decodeLabel_le_labelBound (ls : List String) (s : String) (hs : s ∈ ls) :
    decodeLabel s ≤ labelBound ls := by
  induction ls with
  | nil => simp at hs
  | cons a ls ih =>
      rcases List.mem_cons.mp hs with h | h
      · subst h; exact le_max_left _ _
      · exact le_trans (ih h) (le_max_right _ _)

theorem labelOfIndex_labelBound_not_mem (ls : List String) :
    labelOfIndex (labelBound ls) ∉ ls := by
  intro hmem
  have h1 := decodeLabel_le_labelBound ls _ hmem
  rw [decodeLabel_labelOfIndex] at h1
  omega

theorem nextFreeLabelGo_not_mem (ls : List String) :
    ∀ fuel i : Nat, (∃ n, i ≤ n ∧ n < i + fuel ∧ labelOfIndex n ∉ ls) →
      nextFreeLabelGo ls fuel i ∉ ls := by
  intro fuel
  induction fuel with
  | zero => intro i ⟨n, h1, h2, _⟩; omega
  | succ fuel ih =>
      intro i ⟨n, h1, h2, h3⟩
      by_cases hmem : labelOfIndex i ∈ ls
      · have hne : n ≠ i := by intro h; subst h; exact h3 hmem
        simp only [nextFreeLabelGo, if_pos hmem]
        exact ih (i + 1) ⟨n, by omega, by omega, h3⟩
      · simpa only [nextFreeLabelGo, if_neg hmem] using hmem

theorem nextFreeLabel_not_mem (ls : List String) : nextFreeLabel ls ∉ ls :=
  nextFreeLabelGo_not_mem ls (labelBound ls + 1) 0
    ⟨labelBound ls, by omega, by omega, labelOfIndex_labelBound_not_mem ls⟩

theorem nextFreeLabelGo_isLabel (ls : List String) :
    ∀ fuel i : Nat, ∃ k, nextFreeLabelGo ls fuel i = labelOfIndex k := by
  intro fuel
  induction fuel with
  | zero => intro i; exact ⟨i, rfl⟩
  | succ fuel ih =>
      intro i
      by_cases hmem : labelOfIndex i ∈ ls
      · simpa only [nextFreeLabelGo, if_pos hmem] using ih (i + 1)
      · exact ⟨i, by simp only [nextFreeLabelGo, if_neg hmem]⟩

/-- C3: the unique-label generator returns a base-26 letter string
(`A`, …, `Z`, `AA`, …) that is not among the existing labels; on the node
form it avoids every label currently used by a jump or land node; given
exactly `{A, B, C}` it returns `D`, and given the full single-letter
alphabet `{A..Z}` it returns `AA`. -/
theorem C3_nextUniqueLabel :
    (∀ nodes : List RFNode, getNextJumpLandLabel nodes ∉ jumpLandLabels nodes)
    ∧ (∀ ls : List String, nextFreeLabel ls ∉ ls)
    ∧ (∀ ls : List String, ∃ k, nextFreeLabel ls = labelOfIndex k)
    ∧ nextFreeLabel ["A", "B", "C"] = "D"
    ∧ nextFreeLabel ["A", "B", "C", "D", "E", "F", "G", "H", "I", "J", "K", "L",
        "M", "N", "O", "P", "Q", "R", "S", "T", "U", "V", "W", "X", "Y", "Z"] = "AA" := by
  refine ⟨fun nodes => nextFreeLabel_not_mem _, fun ls => nextFreeLabel_not_mem ls,
    fun ls => nextFreeLabelGo_isLabel ls _ 0, ?_, ?_⟩
  · decide
  · decide

theorem find?_range_aux (p : Nat → Bool) :
    ∀ n s k : Nat, s ≤ k → k < s + n → p k = true →
      (∀ j, s ≤ j → j < k → p j = false) → (List.range' s n).find? p = some k := by
  intro n
  induction n with
  | zero => intro s k h1 h2 _ _; omega
  | succ n ih =>
      intro s k h1 h2 h3 h4
      by_cases hs : s = k
      · subst hs
        simp [List.range', List.find?, h3]
      · have hps : p s = false := h4 s (le_refl s) (by omega)
        have hstep : (List.range' s (n + 1)).find? p = (List.range' (s + 1) n).find? p := by
          simp [List.range', List.find?, hps]
        rw [hstep]
        exact ih (s + 1) k (by omega) (by omega) h3 (fun j hj1 hj2 => h4 j (by omega) hj2)

theorem find?_range8 (p : Nat → Bool) (k : Nat) (hk : k < 8) (hpk : p k = true)
    (hleast : ∀ j, j < k → p j = false) :
    (List.range 8).find? p = some k := by
  rw [List.range_eq_range']
  exact find?_range_aux p 8 0 k (Nat.zero_le k) (by omega) hpk (fun j _ hj => hleast j hj)

theorem nextColorIndex_least (nodes : List RFNode) (k : Nat) (hk : k < 8)
    (hfree : ((jumpLandColorIndices nodes).contains (Int.ofNat k)) = false)
    (hused : ∀ j : Nat, j < k → ((jumpLandColorIndices nodes).contains (Int.ofNat j)) = true) :
    nextColorIndex nodes = Int.ofNat k := by
  unfold nextColorIndex
  rw [find?_range8 _ k hk (by simp only [hfree, Bool.not_false])
    (fun j hj => by simp only [hused j hj, Bool.not_true])]

theorem nextColorIndex_exhausted (nodes : List RFNode)
    (h : ∀ k : Nat, k < 8 → ((jumpLandColorIndices nodes).contains (Int.ofNat k)) = true) :
    nextColorIndex nodes = 0 := by
  unfold nextColorIndex
  have hnone :
      (List.range 8).find? (fun i => !((jumpLandColorIndices nodes).contains (Int.ofNat i)))
        = none := by
    rw [List.find?_eq_none]
    intro x hx
    have hx8 : x < 8 := List.mem_range.mp hx
    rw [h x hx8]
    decide
  rw [hnone]

theorem getLast?_append_one {α : Type} (l : List α) (a : α) :
    (l ++ [a]).getLast? = some a :=
  List.getLast?_concat l

/-- C2 (amended): on every state, `addJumpNode` / `addLandNode` assign the
lowest palette index in `0..7` not used by any existing jump/land node;
when all eight palette indices are in use the current component assigns
index `0` (not `count mod 8`).  The `count mod paletteSize` wrap-around
belongs to the legacy `getColorIndexForLabel` path, which also picks the
lowest unused index first for a fresh label. -/
theorem C2_colorIndex_assignment :
    (∀ (g : Graph) (id : String) (p : Pos) (k : Nat), k < 8 →
        ((jumpLandColorIndices g.nodes).contains (Int.ofNat k)) = false →
        (∀ j : Nat, j < k → ((jumpLandColorIndices g.nodes).contains (Int.ofNat j)) = true) →
        (addJumpNode id p g).nodes.getLast? = some ⟨id, p, .jump none none (Int.ofNat k)⟩
        ∧ (addLandNode id p g).nodes.getLast? = some ⟨id, p, .land none none (Int.ofNat k)⟩)
    ∧ (∀ (g : Graph) (id : String) (p : Pos),
        (∀ k : Nat, k < 8 → ((jumpLandColorIndices g.nodes).contains (Int.ofNat k)) = true) →
        (addJumpNode id p g).nodes.getLast? = some ⟨id, p, .jump none none 0⟩
        ∧ (addLandNode id p g).nodes.getLast? = some ⟨id, p, .land none none 0⟩)
    ∧ (∀ (nodes : List RFNode) (label : String),
        (∀ n ∈ nodes, labelMatches label n = false) →
        (∀ k : Nat, k < 8 → ((jumpLandColorIndices nodes).contains (Int.ofNat k)) = true) →
        getColorIndexForLabel nodes label = ((jumpLandNodes nodes).length : Int) % 8)
    ∧ (∀ (nodes : List RFNode) (label : String) (k : Nat),
        (∀ n ∈ nodes, labelMatches label n = false) → k < 8 →
        ((jumpLandColorIndices nodes).contains (Int.ofNat k)) = false →
        (∀ j : Nat, j < k → ((jumpLandColorIndices nodes).contains (Int.ofNat j)) = true) →
        getColorIndexForLabel nodes label = Int.ofNat k) := by
  have hfresh : ∀ (nodes : List RFNode) (label : String),
      (∀ n ∈ nodes, labelMatches label n = false) →
      (jumpLandNodes nodes).find? (labelMatches label) = none := by
    intro nodes label hf
    rw [List.find?_eq_none]
    intro n hn
    have hmem := (List.mem_filter.mp hn).1
    simp [hf n hmem]
  refine ⟨?_, ?_, ?_, ?_⟩
  · intro g id p k hk hfree hused
    have hc := nextColorIndex_least g.nodes k hk hfree hused
    constructor
    · simp only [addJumpNode, hc, getLast?_append_one]
    · simp only [addLandNode, hc, getLast?_append_one]
  · intro g id p hall
    have hc := nextColorIndex_exhausted g.nodes hall
    constructor
    · simp only [addJumpNode, hc, getLast?_append_one]
    · simp only [addLandNode, hc, getLast?_append_one]
  · intro nodes label hf hall
    have hnone :
        (List.range 8).find? (fun i => !((jumpLandColorIndices nodes).contains (Int.ofNat i)))
          = none := by
      rw [List.find?_eq_none]
      intro x hx
      have hx8 : x < 8 := List.mem_range.mp hx
      rw [hall x hx8]
      decide
    simp only [getColorIndexForLabel, hfresh nodes label hf, hnone]
  · intro nodes label k hf hk hfree hused
    have hsome := find?_range8
      (fun i => !((jumpLandColorIndices nodes).contains (Int.ofNat i))) k hk
      (by simp only [hfree, Bool.not_false])
      (fun j hj => by simp only [hused j hj, Bool.not_true])
    simp only [getColorIndexForLabel, hfresh nodes label hf, hsome]

/-- Witness for C2: concrete instances of all four parts — on the empty
graph index `0` is assigned; after eight creations all indices are in use
and index `0` is assigned again; the legacy path at that state returns
`8 % 8` for a fresh label; and on the empty state the legacy path returns
the lowest unused index `0`. -/
theorem C2_colorIndex_assignment_witness :
    ((addJumpNode "a" ⟨0, 0⟩ ⟨[], []⟩).nodes.getLast?
        = some ⟨"a", ⟨0, 0⟩, .jump none none (Int.ofNat 0)⟩)
    ∧ ((addJumpNode "8" ⟨0, 0⟩ (buildJump 8)).nodes.getLast?
        = some ⟨"8", ⟨0, 0⟩, .jump none none 0⟩)
    ∧ getColorIndexForLabel (buildJump 8).nodes "X"
        = (((jumpLandNodes (buildJump 8).nodes).length : Int) % 8)
    ∧ getColorIndexForLabel [] "X" = Int.ofNat 0 := by
  obtain ⟨h1, h2, h3, h4⟩ := C2_colorIndex_assignment
  exact ⟨(h1 ⟨[], []⟩ "a" ⟨0, 0⟩ 0 (by decide) (by decide)
      (fun j hj => absurd hj (Nat.not_lt_zero j))).1,
    (h2 (buildJump 8) "8" ⟨0, 0⟩ (by decide)).1,
    h3 (buildJump 8).nodes "X" (by decide) (by decide),
    h4 [] "X" 0 (by decide) (by decide) (by decide)
      (fun j hj => absurd hj (Nat.not_lt_zero j))⟩

/-- Counterexample to C2 as stated: after nine `addJumpNode` creations
every palette index is in use and there are nine jump/land nodes, so the
claim predicts colour `9 mod 8 = 1` for the tenth creation, but the code
assigns `0`. -/
theorem C2_counterexample :
    (∀ k : Nat, k < 8 → ((jumpLandColorIndices (buildJump 9).nodes).contains (Int.ofNat k)) = true)
    ∧ (addJumpNode "9" ⟨0, 0⟩ (buildJump 9)).nodes.getLast?
        = some ⟨"9", ⟨0, 0⟩, NodeData.jump none none 0⟩
    ∧ (((buildJump 9).nodes.length : Int) % 8 = 1)
    ∧ (0 : Int) ≠ 1 := by
  refine ⟨by decide, by decide, by decide, by decide⟩

/-- Counterexample to C4 as stated: a jump node positioned at `(-1,-1)`
is excluded from the visible-node query but is not included in the
template query (`templates` keeps only `box` nodes). -/
theorem C4_counterexample :
    visibleNodesQ [⟨"j1", ⟨-1, -1⟩, NodeData.jump none none 0⟩] = []
    ∧ templatesQ [⟨"j1", ⟨-1, -1⟩, NodeData.jump none none 0⟩] = [] := by
  decide

/-- C4 (amended): any node at exactly `(-1,-1)` is excluded from the
visible-node query, and a process (`box`) node at `(-1,-1)` is included
in the template query; any node at `(0,0)` is visible and is not
projected as a template. -/
theorem C4_template_visible :
    (∀ (nodes : List RFNode) (n : RFNode), n ∈ nodes → n.pos = ⟨-1, -1⟩ →
        n ∉ visibleNodesQ nodes)
    ∧ (∀ (nodes : List RFNode) (n : RFNode), n ∈ nodes → n.pos = ⟨-1, -1⟩ →
        (∃ lbl wd db, n.data = NodeData.box lbl wd db) →
        ∃ t ∈ templatesQ nodes, t.id = n.id)
    ∧ (∀ (nodes : List RFNode) (n : RFNode), n ∈ nodes → n.pos = ⟨0, 0⟩ →
        n ∈ visibleNodesQ nodes)
    ∧ (∀ n : RFNode, n.pos = ⟨0, 0⟩ → templateProj n = none) := by
  refine ⟨?_, ?_, ?_, ?_⟩
  · intro nodes n hmem hpos hvis
    have hcond := (List.mem_filter.mp hvis).2
    rw [hpos] at hcond
    simp at hcond
  · intro nodes n hmem hpos ⟨lbl, wd, db, hdata⟩
    refine ⟨⟨n.id, jsOrD (jsOrO (wd.bind (·.ad)) (some lbl)) "",
      jsOrD (wd.bind (·.aciklama)) ""⟩, List.mem_filterMap.mpr ⟨n, hmem, ?_⟩, rfl⟩
    simp [templateProj, hdata, hpos]
  · intro nodes n hmem hpos
    refine List.mem_filter.mpr ⟨hmem, ?_⟩
    rw [hpos]
    decide
  · intro n hpos
    unfold templateProj
    cases hd : n.data with
    | box lbl wd db => rw [hpos]; simp
    | jump a b c => rfl
    | land a b c => rfl

/-- Witness for C4 (amended): a box template at `(-1,-1)` together with a
box node at `(0,0)`. -/
theorem C4_template_visible_witness :
    ((⟨"b1", ⟨-1, -1⟩, NodeData.box "T" none none⟩ : RFNode)
        ∉ visibleNodesQ [⟨"b1", ⟨-1, -1⟩, NodeData.box "T" none none⟩,
            ⟨"v1", ⟨0, 0⟩, NodeData.box "V" none none⟩])
    ∧ (∃ t ∈ templatesQ [⟨"b1", ⟨-1, -1⟩, NodeData.box "T" none none⟩,
            ⟨"v1", ⟨0, 0⟩, NodeData.box "V" none none⟩],
        t.id = (⟨"b1", ⟨-1, -1⟩, NodeData.box "T" none none⟩ : RFNode).id)
    ∧ ((⟨"v1", ⟨0, 0⟩, NodeData.box "V" none none⟩ : RFNode)
        ∈ visibleNodesQ [⟨"b1", ⟨-1, -1⟩, NodeData.box "T" none none⟩,
            ⟨"v1", ⟨0, 0⟩, NodeData.box "V" none none⟩])
    ∧ templateProj ⟨"v1", ⟨0, 0⟩, NodeData.box "V" none none⟩ = none := by
  obtain ⟨h1, h2, h3, h4⟩ := C4_template_visible
  exact ⟨h1 _ _ (by simp) rfl, h2 _ _ (by simp) rfl ⟨"T", none, none, rfl⟩,
    h3 _ _ (by simp) rfl, h4 _ rfl⟩

/-- C8: every land offered by `getAvailableLandNodes` is either referenced
by no jump node's `landId`, or is exactly the land currently selected for
the node being edited (assuming, as all creation sites guarantee, that no
jump node carries the empty string as a `landId`). -/
theorem C8_available_lands (nodes : List RFNode) (sel : Option String) (l : LandInfo)
    (hmem : l ∈ getAvailableLandNodes nodes sel)
    (hids : ∀ n ∈ nodes, jumpLandIdOf n ≠ some "") :
    (∀ n ∈ nodes, jumpLandIdOf n ≠ some l.id) ∨ some l.id = sel := by
  have hcond := (List.mem_filter.mp hmem).2
  rw [Bool.or_eq_true] at hcond
  rcases hcond with hnc | heq
  · left
    intro n hn hid
    rw [Bool.not_eq_true'] at hnc
    have hin : l.id ∈ connectedLandIds nodes := by
      apply List.mem_filterMap.mpr
      refine ⟨n, hn, ?_⟩
      have hne : l.id ≠ "" := by
        intro h0
        exact hids n hn (h0 ▸ hid)
      cases hd : n.data with
      | jump a li c =>
          have hli : li = some l.id := by
            simpa [jumpLandIdOf, hd] using hid
          simp [hd, hli, truthyStr, jsOrO, hne]
      | box lbl wd db => simp [jumpLandIdOf, hd] at hid
      | land a b c => simp [jumpLandIdOf, hd] at hid
    have hc : (connectedLandIds nodes).contains l.id = true :=
      List.elem_eq_true_of_mem hin
    rw [hnc] at hc
    exact Bool.false_ne_true hc
  · right
    exact eq_of_beq heq

/-- Witness for C8: with one jump referencing land `L1`, only land `L2`
is offered, and indeed no jump references `L2`. -/
theorem C8_available_lands_witness :
    (∀ n ∈ ([⟨"j1", ⟨0, 0⟩, NodeData.jump none (some "L1") 0⟩,
        ⟨"L1", ⟨0, 0⟩, NodeData.land none none 0⟩,
        ⟨"L2", ⟨0, 0⟩, NodeData.land none none 1⟩] : List RFNode),
      jumpLandIdOf n ≠ some (⟨"L2", "Land 2", 1⟩ : LandInfo).id)
    ∨ some (⟨"L2", "Land 2", 1⟩ : LandInfo).id = (none : Option String) :=
  C8_available_lands _ none ⟨"L2", "Land 2", 1⟩ (by decide) (by decide)

/-- C9: a node deletion request runs the registered `onNodesDelete`
callback, which performs no update: the edge collection (and the node
collection) is left exactly as it was, so edges referencing deleted
nodes are retained. -/
theorem C9_delete_keeps_edges :
    ∀ (deletedNodes : List RFNode) (g : Graph),
      (onNodesDelete deletedNodes g).edges = g.edges
      ∧ (onNodesDelete deletedNodes g).nodes = g.nodes :=
  fun _ _ => ⟨rfl, rfl⟩

theorem truthyStr_idem (a : Option String) : truthyStr (truthyStr a) = truthyStr a := by
  cases a with
  | none => rfl
  | some s =>
      by_cases h : s = "" <;> simp [truthyStr, jsOrO, h]

theorem jsOrD_ne_empty (a : Option String) (d : String)
    (h : jsOrD a "" ≠ "") : jsOrD a d = jsOrD a "" := by
  cases a with
  | none => simp [jsOrD] at h
  | some s =>
      by_cases hs : s = "" <;> simp [jsOrD, hs] at h ⊢

theorem importNodesFrom_length (genN : Nat → String) :
    ∀ (i : Nat) (ns : List RawNode), (importNodesFrom genN i ns).length = ns.length := by
  intro i ns
  induction ns generalizing i with
  | nil => rfl
  | cons n rest ih => simp [importNodesFrom, ih]

theorem importNodesFrom_append (genN : Nat → String) :
    ∀ (xs ys : List RawNode) (i : Nat),
      importNodesFrom genN i (xs ++ ys)
        = importNodesFrom genN i xs ++ importNodesFrom genN (i + xs.length) ys := by
  intro xs
  induction xs with
  | nil => intro ys i; simp [importNodesFrom]
  | cons x rest ih =>
      intro ys i
      show rawToNode genN i x :: importNodesFrom genN (i + 1) (rest ++ ys) = _
      rw [ih ys (i + 1)]
      simp only [importNodesFrom, List.length_cons, List.cons_append]
      rw [show i + (rest.length + 1) = i + 1 + rest.length by omega]

theorem export_nodes_length (g : Graph) :
    ∀ ns : List RFNode,
      (ns.filterMap rawOfBox).length + (ns.filterMap rawOfJump).length
        + (ns.filterMap (rawOfLand g)).length = ns.length := by
  intro ns
  induction ns with
  | nil => rfl
  | cons n rest ih =>
      cases hd : n.data with
      | box lbl wd db =>
          simp only [List.filterMap_cons, rawOfBox, rawOfJump, rawOfLand, hd,
            List.length_cons]
          omega
      | jump a b c =>
          simp only [List.filterMap_cons, rawOfBox, rawOfJump, rawOfLand, hd,
            List.length_cons]
          omega
      | land a b c =>
          simp only [List.filterMap_cons, rawOfBox, rawOfJump, rawOfLand, hd,
            List.length_cons]
          omega

theorem rawToNode_exportBox (genN : Nat → String) (i : Nat) (n : RFNode)
    (lbl : String) (wd : Option WorkflowDef) (db : Option String)
    (hd : n.data = .box lbl wd db) (hid : n.id ≠ "") (had : effAd lbl wd ≠ "")
    (r : RawNode) (hr : rawOfBox n = some r) :
    rawToNode genN i r = ⟨n.id, n.pos, .box (effAd lbl wd)
      (some ⟨some (effAd lbl wd), some (effAciklama wd)⟩) (some n.id)⟩ := by
  rw [rawOfBox, hd] at hr
  injection hr with hr
  subst hr
  by_cases hk : effAciklama wd = "" <;>
    simp [rawToNode, importPos, importAd, importAciklama, jsOrD, jsOrO,
      numOf, jvalOrElse, hid, had, hk]

theorem rawToNode_exportJump (genN : Nat → String) (i : Nat) (n : RFNode)
    (lb landId : Option String) (ci : Int)
    (hd : n.data = .jump lb landId ci) (hid : n.id ≠ "")
    (r : RawNode) (hr : rawOfJump n = some r) :
    rawToNode genN i r = ⟨n.id, n.pos, .jump none (truthyStr landId) ci⟩ := by
  rw [rawOfJump, hd] at hr
  injection hr with hr
  subst hr
  simp [rawToNode, importPos, jsOrD, numOf, jvalOrElse, hid, truthyStr_idem]

theorem rawToNode_exportLand (genN : Nat → String) (i : Nat) (g : Graph) (n : RFNode)
    (lb nx : Option String) (ci : Int)
    (hd : n.data = .land lb nx ci) (hid : n.id ≠ "")
    (r : RawNode) (hr : rawOfLand g n = some r) :
    rawToNode genN i r
      = ⟨n.id, n.pos, .land none (truthyStr (landNextNode g n.id)) ci⟩ := by
  rw [rawOfLand, hd] at hr
  injection hr with hr
  subst hr
  simp [rawToNode, importPos, jsOrD, numOf, jvalOrElse, hid, truthyStr_idem]

theorem boxAdOk_effAd (n : RFNode) (lbl : String) (wd : Option WorkflowDef)
    (db : Option String) (hd : n.data = .box lbl wd db) (h : boxAdOk n = true) :
    effAd lbl wd ≠ "" := by
  rw [boxAdOk, hd] at h
  simpa using h

theorem importNodesFrom_boxRaws (genN : Nat → String) (ns : List RFNode)
    (hid : ∀ n ∈ ns, n.id ≠ "") (had : ∀ n ∈ ns, boxAdOk n = true) :
    ∀ i : Nat, importNodesFrom genN i (ns.filterMap rawOfBox)
      = ns.filterMap importedBoxOf := by
  induction ns with
  | nil => intro i; rfl
  | cons n rest ih =>
      intro i
      have hid1 : n.id ≠ "" := hid n (by simp)
      have hidr : ∀ m ∈ rest, m.id ≠ "" := fun m hm => hid m (by simp [hm])
      have hadr : ∀ m ∈ rest, boxAdOk m = true := fun m hm => had m (by simp [hm])
      cases hd : n.data with
      | box lbl wd db =>
          have had1 : effAd lbl wd ≠ "" := boxAdOk_effAd n lbl wd db hd (had n (by simp))
          simp only [List.filterMap_cons, rawOfBox, importedBoxOf, hd, importNodesFrom]
          rw [rawToNode_exportBox genN i n lbl wd db hd hid1 had1 _ (by rw [rawOfBox, hd])]
          rw [ih hidr hadr (i + 1)]
      | jump a b c =>
          simp only [List.filterMap_cons, rawOfBox, importedBoxOf, hd]
          exact ih hidr hadr i
      | land a b c =>
          simp only [List.filterMap_cons, rawOfBox, importedBoxOf, hd]
          exact ih hidr hadr i

theorem importNodesFrom_jumpRaws (genN : Nat → String) (ns : List RFNode)
    (hid : ∀ n ∈ ns, n.id ≠ "") :
    ∀ i : Nat, importNodesFrom genN i (ns.filterMap rawOfJump)
      = ns.filterMap importedJumpOf := by
  induction ns with
  | nil => intro i; rfl
  | cons n rest ih =>
      intro i
      have hid1 : n.id ≠ "" := hid n (by simp)
      have hidr : ∀ m ∈ rest, m.id ≠ "" := fun m hm => hid m (by simp [hm])
      cases hd : n.data with
      | jump a landId ci =>
          simp only [List.filterMap_cons, rawOfJump, importedJumpOf, hd, importNodesFrom]
          rw [rawToNode_exportJump genN i n a landId ci hd hid1 _ (by rw [rawOfJump, hd])]
          rw [ih hidr (i + 1)]
      | box lbl wd db =>
          simp only [List.filterMap_cons, rawOfJump, importedJumpOf, hd]
          exact ih hidr i
      | land a b c =>
          simp only [List.filterMap_cons, rawOfJump, importedJumpOf, hd]
          exact ih hidr i

theorem importNodesFrom_landRaws (genN : Nat → String) (g : Graph) (ns : List RFNode)
    (hid : ∀ n ∈ ns, n.id ≠ "") :
    ∀ i : Nat, importNodesFrom genN i (ns.filterMap (rawOfLand g))
      = ns.filterMap (importedLandOf g) := by
  induction ns with
  | nil => intro i; rfl
  | cons n rest ih =>
      intro i
      have hid1 : n.id ≠ "" := hid n (by simp)
      have hidr : ∀ m ∈ rest, m.id ≠ "" := fun m hm => hid m (by simp [hm])
      cases hd : n.data with
      | land a nx ci =>
          simp only [List.filterMap_cons, rawOfLand, importedLandOf, hd, importNodesFrom]
          rw [rawToNode_exportLand genN i g n a nx ci hd hid1 _ (by rw [rawOfLand, hd])]
          rw [ih hidr (i + 1)]
      | box lbl wd db =>
          simp only [List.filterMap_cons, rawOfLand, importedLandOf, hd]
          exact ih hidr i
      | jump a b c =>
          simp only [List.filterMap_cons, rawOfLand, importedLandOf, hd]
          exact ih hidr i

theorem effAd_round (a k : String) (ha : a ≠ "") :
    effAd a (some ⟨some a, some k⟩) = a := by
  simp [effAd, jsOrO, jsOrD, ha]

theorem effAciklama_round (a k : String) : effAciklama (some ⟨some a, some k⟩) = k := by
  by_cases hk : k = "" <;> simp [effAciklama, jsOrD, hk]

theorem boxProj_append (l1 l2 : List RFNode) :
    boxProj (l1 ++ l2) = boxProj l1 ++ boxProj l2 := by
  simp [boxProj, List.filterMap_append]

theorem boxProj_importedBox (ns : List RFNode) (had : ∀ n ∈ ns, boxAdOk n = true) :
    boxProj (ns.filterMap importedBoxOf) = boxProj ns := by
  induction ns with
  | nil => rfl
  | cons n rest ih =>
      have hadr : ∀ m ∈ rest, boxAdOk m = true := fun m hm => had m (by simp [hm])
      cases hd : n.data with
      | box lbl wd db =>
          have had1 : effAd lbl wd ≠ "" := boxAdOk_effAd n lbl wd db hd (had n (by simp))
          simp only [List.filterMap_cons, importedBoxOf, hd, boxProj,
            effAd_round _ _ had1, effAciklama_round]
          rw [show List.filterMap importedBoxOf rest = rest.filterMap importedBoxOf from rfl]
          have := ih hadr
          simp only [boxProj] at this
          rw [this]
      | jump a b c =>
          simp only [List.filterMap_cons, importedBoxOf, hd, boxProj]
          exact ih hadr
      | land a b c =>
          simp only [List.filterMap_cons, importedBoxOf, hd, boxProj]
          exact ih hadr

theorem boxProj_importedJump (ns : List RFNode) :
    boxProj (ns.filterMap importedJumpOf) = [] := by
  induction ns with
  | nil => rfl
  | cons n rest ih =>
      cases hd : n.data <;>
        simp only [List.filterMap_cons, importedJumpOf, hd, boxProj] <;>
        simpa [boxProj] using ih

theorem boxProj_importedLand (g : Graph) (ns : List RFNode) :
    boxProj (ns.filterMap (importedLandOf g)) = [] := by
  induction ns with
  | nil => rfl
  | cons n rest ih =>
      cases hd : n.data <;>
        simp only [List.filterMap_cons, importedLandOf, hd, boxProj] <;>
        simpa [boxProj] using ih

theorem adEntry_round (s : String) (n : RFNode) (lbl : String)
    (wd : Option WorkflowDef) (db : Option String)
    (hd : n.data = .box lbl wd db) (ha : effAd lbl wd ≠ "") :
    adEntry s (⟨n.id, n.pos, .box (effAd lbl wd)
        (some ⟨some (effAd lbl wd), some (effAciklama wd)⟩) (some n.id)⟩ : RFNode)
      = adEntry s n := by
  simp only [adEntry, hd]
  by_cases hs : n.id = s
  · rw [if_pos hs, if_pos hs]
    have h1 : jsOrO ((some (⟨some (effAd lbl wd), some (effAciklama wd)⟩ :
        WorkflowDef)).bind (·.ad)) (some (effAd lbl wd)) = some (effAd lbl wd) := by
      simp [jsOrO, ha]
    rw [h1]
    have h2 : jsOrD (some (effAd lbl wd)) n.id = effAd lbl wd := by
      simp [jsOrD, ha]
    rw [h2]
    rw [jsOrD_ne_empty _ _ ha]
    rfl
  · rw [if_neg hs, if_neg hs]

theorem filterMap_adEntry_box (s : String) (ns : List RFNode)
    (had : ∀ n ∈ ns, boxAdOk n = true) :
    (ns.filterMap importedBoxOf).filterMap (adEntry s) = ns.filterMap (adEntry s) := by
  induction ns with
  | nil => rfl
  | cons n rest ih =>
      have hadr : ∀ m ∈ rest, boxAdOk m = true := fun m hm => had m (by simp [hm])
      cases hd : n.data with
      | box lbl wd db =>
          have had1 : effAd lbl wd ≠ "" := boxAdOk_effAd n lbl wd db hd (had n (by simp))
          simp only [List.filterMap_cons, importedBoxOf, hd]
          rw [adEntry_round s n lbl wd db hd had1]
          rw [show adEntry s n = (if n.id = s
              then some (jsOrD (jsOrO (wd.bind (·.ad)) (some lbl)) n.id) else none)
            from by rw [adEntry, hd]]
          by_cases hs : n.id = s
          · simp only [if_pos hs, List.filterMap_cons]
            rw [ih hadr]
          · simp only [if_neg hs]
            rw [ih hadr]
      | jump a b c =>
          simp only [List.filterMap_cons, importedBoxOf, adEntry, hd]
          exact ih hadr
      | land a b c =>
          simp only [List.filterMap_cons, importedBoxOf, adEntry, hd]
          exact ih hadr

theorem filterMap_adEntry_jump (s : String) (ns : List RFNode) :
    (ns.filterMap importedJumpOf).filterMap (adEntry s) = [] := by
  induction ns with
  | nil => rfl
  | cons n rest ih =>
      cases hd : n.data with
      | jump a b c =>
          simp only [List.filterMap_cons, importedJumpOf, hd]
          simp only [List.filterMap_cons, adEntry]
          exact ih
      | box lbl wd db =>
          simp only [List.filterMap_cons, importedJumpOf, hd]
          exact ih
      | land a b c =>
          simp only [List.filterMap_cons, importedJumpOf, hd]
          exact ih

theorem filterMap_adEntry_land (s : String) (g : Graph) (ns : List RFNode) :
    (ns.filterMap (importedLandOf g)).filterMap (adEntry s) = [] := by
  induction ns with
  | nil => rfl
  | cons n rest ih =>
      cases hd : n.data with
      | land a b c =>
          simp only [List.filterMap_cons, importedLandOf, hd]
          simp only [List.filterMap_cons, adEntry]
          exact ih
      | box lbl wd db =>
          simp only [List.filterMap_cons, importedLandOf, hd]
          exact ih
      | jump a b c =>
          simp only [List.filterMap_cons, importedLandOf, hd]
          exact ih

theorem importEdges_exportEdges (adMap : String → Option String)
    (genE genE2 : Nat → String) (nodes : List RFNode) :
    ∀ es : List REdge, (∀ e ∈ es, e.source ≠ "" ∧ e.target ≠ "") →
      ∀ i j : Nat,
        (importEdgesFrom adMap genE2 j (exportEdgesFrom nodes genE i es)).map edgeEnds
          = es.map edgeEnds := by
  intro es
  induction es with
  | nil => intro _ i j; rfl
  | cons e rest ih =>
      intro h i j
      have he := h e (by simp)
      have hr : ∀ x ∈ rest, x.source ≠ "" ∧ x.target ≠ "" :=
        fun x hx => h x (by simp [hx])
      simp only [exportEdgesFrom, importEdgesFrom, resolveEnds, truthyStr, jsOrO,
        if_neg he.1, if_neg he.2]
      simp only [List.map_cons, edgeEnds]
      rw [ih hr (i + 1) (j + 1)]

theorem edgeNamePairs_eq_map (nodes : List RFNode) (edges : List REdge) :
    edgeNamePairs nodes edges = (edges.map edgeEnds).map
      (fun p => (endpointName nodes p.1, endpointName nodes p.2)) := by
  rw [List.map_map]
  rfl

theorem edgeNamePairs_congr (nodes1 nodes2 : List RFNode) (edges1 edges2 : List REdge)
    (hn : ∀ s, endpointName nodes1 s = endpointName nodes2 s)
    (he : edges1.map edgeEnds = edges2.map edgeEnds) :
    edgeNamePairs nodes1 edges1 = edgeNamePairs nodes2 edges2 := by
  rw [edgeNamePairs_eq_map, edgeNamePairs_eq_map, he]
  congr 1
  funext p
  rw [hn p.1, hn p.2]

theorem roundTrip_nodes (g : Graph) (genE genN genE2 : Nat → String) (prev : Graph)
    (hid : ∀ n ∈ g.nodes, n.id ≠ "") (had : ∀ n ∈ g.nodes, boxAdOk n = true) :
    (roundTrip g genE genN genE2 prev).nodes
      = g.nodes.filterMap importedBoxOf ++ g.nodes.filterMap importedJumpOf
        ++ g.nodes.filterMap (importedLandOf g) := by
  have h0 : (roundTrip g genE genN genE2 prev).nodes
      = importNodesFrom genN 0
          (exportBoxRaws g.nodes ++ exportJumpRaws g.nodes ++ exportLandRaws g) ++ [] :=
    rfl
  rw [h0, List.append_nil]
  rw [importNodesFrom_append, importNodesFrom_append]
  simp only [exportBoxRaws, exportJumpRaws, exportLandRaws]
  rw [importNodesFrom_boxRaws genN g.nodes hid had,
    importNodesFrom_jumpRaws genN g.nodes hid,
    importNodesFrom_landRaws genN g g.nodes hid]

theorem endpointName_roundTrip (g : Graph) (genE genN genE2 : Nat → String)
    (prev : Graph) (hid : ∀ n ∈ g.nodes, n.id ≠ "")
    (had : ∀ n ∈ g.nodes, boxAdOk n = true) (s : String) :
    endpointName (roundTrip g genE genN genE2 prev).nodes s = endpointName g.nodes s := by
  unfold endpointName nodeIdToAd
  rw [roundTrip_nodes g genE genN genE2 prev hid had]
  rw [List.filterMap_append, List.filterMap_append]
  rw [filterMap_adEntry_box s g.nodes had, filterMap_adEntry_jump s g.nodes,
    filterMap_adEntry_land s g g.nodes]
  simp

/-- C1 (amended): for every graph in which node ids are non-empty, every
process node has a truthy effective name, and every edge endpoint id is
non-empty, exporting and re-importing yields an equivalent graph: same
node count, same `(id, ad, aciklama)` projection of the process nodes,
and the same sequence of edge endpoint pairs both by id and by node
name, for any id generators.  (Without those truthiness conditions the
round trip renames empty-named process nodes to `Imported Node` and
drops edges whose endpoint id is the empty string — see the
counterexample.) -/
theorem C1_export_import_roundtrip (g : Graph) (genE genN genE2 : Nat → String)
    (prev : Graph)
    (hid : ∀ n ∈ g.nodes, n.id ≠ "")
    (had : ∀ n ∈ g.nodes, boxAdOk n = true)
    (hedge : ∀ e ∈ g.edges, e.source ≠ "" ∧ e.target ≠ "") :
    (roundTrip g genE genN genE2 prev).nodes.length = g.nodes.length
    ∧ boxProj (roundTrip g genE genN genE2 prev).nodes = boxProj g.nodes
    ∧ (roundTrip g genE genN genE2 prev).edges.map edgeEnds = g.edges.map edgeEnds
    ∧ edgeNamePairs (roundTrip g genE genN genE2 prev).nodes
        (roundTrip g genE genN genE2 prev).edges
      = edgeNamePairs g.nodes g.edges := by
  have hnodes := roundTrip_nodes g genE genN genE2 prev hid had
  have hlen : (roundTrip g genE genN genE2 prev).nodes.length = g.nodes.length := by
    have h0 : (roundTrip g genE genN genE2 prev).nodes
        = importNodesFrom genN 0
            (exportBoxRaws g.nodes ++ exportJumpRaws g.nodes ++ exportLandRaws g)
            ++ [] := rfl
    rw [h0, List.append_nil, importNodesFrom_length]
    simp only [List.length_append, exportBoxRaws, exportJumpRaws, exportLandRaws]
    have := export_nodes_length g g.nodes
    omega
  have hedges : (roundTrip g genE genN genE2 prev).edges.map edgeEnds
      = g.edges.map edgeEnds := by
    have h0 : (roundTrip g genE genN genE2 prev).edges
        = importEdgesFrom (adToNodeId (roundTrip g genE genN genE2 prev).nodes) genE2 0
            (exportEdgesFrom g.nodes genE 0 g.edges) := rfl
    rw [h0]
    exact importEdges_exportEdges _ genE genE2 g.nodes g.edges hedge 0 0
  refine ⟨hlen, ?_, hedges, ?_⟩
  · rw [hnodes, boxProj_append, boxProj_append, boxProj_importedBox g.nodes had,
      boxProj_importedJump, boxProj_importedLand]
    simp
  · exact edgeNamePairs_congr _ _ _ _
      (endpointName_roundTrip g genE genN genE2 prev hid had) hedges

/-- Witness for C1 (amended) on a concrete well-formed graph with a box,
jump and land node and two edges. -/
theorem C1_export_import_roundtrip_witness :
    (roundTrip gGood gen0 gen0 gen0 gGood).nodes.length = gGood.nodes.length
    ∧ boxProj (roundTrip gGood gen0 gen0 gen0 gGood).nodes = boxProj gGood.nodes
    ∧ (roundTrip gGood gen0 gen0 gen0 gGood).edges.map edgeEnds
        = gGood.edges.map edgeEnds
    ∧ edgeNamePairs (roundTrip gGood gen0 gen0 gen0 gGood).nodes
        (roundTrip gGood gen0 gen0 gen0 gGood).edges
      = edgeNamePairs gGood.nodes gGood.edges :=
  C1_export_import_roundtrip gGood gen0 gen0 gen0 gGood
    (by decide) (by decide) (by decide)

/-- Counterexample to C1 as stated: on `gBad` (a box node whose name is
empty and a land node whose id is the empty string) the round trip
changes the process-node name to `Imported Node` and drops the edge, so
neither the name/description projection nor the edge endpoint set is
preserved (the node count still is). -/
theorem C1_counterexample :
    boxProj (roundTrip gBad gen0 gen0 gen0 gBad).nodes ≠ boxProj gBad.nodes
    ∧ (roundTrip gBad gen0 gen0 gen0 gBad).edges.map edgeEnds
        ≠ gBad.edges.map edgeEnds
    ∧ (roundTrip gBad gen0 gen0 gen0 gBad).nodes.length = gBad.nodes.length := by
  refine ⟨by decide, by decide, by decide⟩

/-- C5: every edge entry whose endpoints cannot be resolved (directly by
id, or through the name maps) is dropped rather than imported or made to
fail: the imported endpoint pairs are exactly the resolvable entries.
On the concrete two-node document with one resolvable and one
unresolvable entry, exactly one edge is produced. -/
theorem C5_unresolvable_edges_dropped :
    (∀ (adMap : String → Option String) (genE : Nat → String) (i : Nat)
        (es : List RawEdge),
      (importEdgesFrom adMap genE i es).map edgeEnds = es.filterMap (resolveEnds adMap))
    ∧ (importJson docC5 gen0 gen0 ⟨[], []⟩).edges.map edgeEnds = [("idA", "idB")]
    ∧ (importJson docC5 gen0 gen0 ⟨[], []⟩).edges.length = 1 := by
  refine ⟨?_, by decide, by decide⟩
  intro adMap genE i es
  induction es generalizing i with
  | nil => rfl
  | cons e rest ih =>
      cases h : resolveEnds adMap e with
      | some p =>
          cases p with
          | mk s t =>
              simp only [importEdgesFrom, h, List.filterMap_cons, List.map_cons, edgeEnds]
              rw [ih (i + 1)]
      | none =>
          simp only [importEdgesFrom, h, List.filterMap_cons]
          rw [ih (i + 1)]

/-- C6: when the import file fails to parse (`JSON.parse` throws), the
catch branch reports the localized alert and leaves both the node
collection and the edge collection exactly as they were. -/
theorem C6_parse_failure_atomic :
    ∀ (genN genE : Nat → String) (prev : Graph),
      (importJsonCaught none genN genE prev).1.nodes = prev.nodes
      ∧ (importJsonCaught none genN genE prev).1.edges = prev.edges
      ∧ (importJsonCaught none genN genE prev).2 = true :=
  fun _ _ _ => ⟨rfl, rfl, rfl⟩

/-- C7 (amended): a raw node entry at array index `N` whose resolved
position is not numeric is placed at the fallback grid slot for `N`
(column `N mod 5`, row `N div 5`, from offset `(100,100)` with spacing
`250`/`100`) — `N` is the index in the whole `nodes` array, not the
index among unrecognized entries.  Distinct indices give distinct
positions and every fallback coordinate is at least `100`. -/
theorem C7_fallback_grid :
    (∀ (genN : Nat → String) (i : Nat) (r : RawNode),
        numOf (jvalOrElse r.x (r.position.bind (·.x))) = none →
        numOf (jvalOrElse r.y (r.position.bind (·.y))) = none →
        (rawToNode genN i r).pos = ⟨fallbackX i, fallbackY i⟩)
    ∧ (∀ i j : Nat, fallbackX i = fallbackX j → fallbackY i = fallbackY j → i = j)
    ∧ (∀ i : Nat, 100 ≤ fallbackX i ∧ 100 ≤ fallbackY i) := by
  refine ⟨?_, ?_, ?_⟩
  · intro genN i r hx hy
    simp only [rawToNode, importPos, hx, hy, Option.getD_none]
    split
    · rfl
    · split <;> rfl
  · intro i j h1 h2
    simp only [fallbackX, fallbackY, Int.ofNat_eq_coe] at h1 h2
    omega
  · intro i
    simp only [fallbackX, fallbackY, Int.ofNat_eq_coe]
    constructor <;> omega

/-- Witness for C7 (amended): the empty raw entry at index `7` lands on
the fallback slot for index `7`; the injectivity and bound parts at
concrete indices. -/
theorem C7_fallback_grid_witness :
    (rawToNode gen0 7 {}).pos = ⟨fallbackX 7, fallbackY 7⟩
    ∧ (3 : Nat) = 3
    ∧ (100 ≤ fallbackX 12 ∧ 100 ≤ fallbackY 12) := by
  obtain ⟨h1, h2, h3⟩ := C7_fallback_grid
  exact ⟨h1 gen0 7 {} rfl rfl, h2 3 3 rfl rfl, h3 12⟩

/-- Counterexample to C7 as stated: in a two-entry array whose first
entry has a numeric position and whose second does not, the single
unrecognized node (the 0th such) is placed at `(350, 100)` — the slot of
its array index 1 — not at `(100, 100)` as the per-unrecognized-node
reading predicts. -/
theorem C7_counterexample :
    ((importJson { nodes := some [{ x := some (.num 0), y := some (.num 0) }, {}] }
        gen0 gen0 ⟨[], []⟩).nodes.map (fun n => n.pos))
      = [⟨0, 0⟩, ⟨350, 100⟩]
    ∧ (⟨350, 100⟩ : Pos) ≠ ⟨100, 100⟩ := by
  refine ⟨by decide, by decide⟩

/-- C10: a parsed document with a `nodes` array but no `edges` array
replaces the node collection with the imported nodes while the previous
edge collection is retained unchanged. -/
theorem C10_missing_edges_array (doc : ImportDoc) (ns : List RawNode)
    (genN genE : Nat → String) (prev : Graph)
    (hn : doc.nodes = some ns) (he : doc.edges = none) :
    (importJson doc genN genE prev).edges = prev.edges
    ∧ (importJson doc genN genE prev).nodes
        = importNodesFrom genN 0 ns
          ++ (match doc.templates with
              | some ts => importTemplatesFrom 0 ts
              | none => []) := by
  constructor <;> simp only [importJson, hn, he]

/-- Witness for C10: importing a document with an empty `nodes` array and
no `edges` field keeps the previous (now dangling) edge. -/
theorem C10_missing_edges_array_witness :
    (importJson { nodes := some [] } gen0 gen0 ⟨[], [⟨"e", "a", "b"⟩]⟩).edges
        = (⟨[], [⟨"e", "a", "b"⟩]⟩ : Graph).edges
    ∧ (importJson { nodes := some [] } gen0 gen0 ⟨[], [⟨"e", "a", "b"⟩]⟩).nodes
        = importNodesFrom gen0 0 []
          ++ (match ({ nodes := some [] } : ImportDoc).templates with
              | some ts => importTemplatesFrom 0 ts
              | none => []) :=
  C10_missing_edges_array { nodes := some [] } [] gen0 gen0 ⟨[], [⟨"e", "a", "b"⟩]⟩
    rfl rfl
